import Mathlib

/-!
Verification of the ff1pr-autosplitter core against its specification.

The definitions below are a shallow embedding of the Rust sources:

* src/game.rs   -- the battle / inventory checks driven by two-sample watchers
* src/splits.rs -- the Progress state machine and the Delayed one-shot timer
* src/lib.rs    -- the Splits poll step (battle, field and inventory checks,
                   the seen-splits set and the chaos end-of-battle timer)
* src/data.rs   -- the typed remote views (arrays, lists, maps) and their
                   bounds-checked iteration

Remote memory is modelled by read functions of type Nat -> Option T (an
address either yields a value or is unreadable), matching the MemReader
contract in src/data.rs.  Addresses are modelled as exact naturals: the
u64 address arithmetic of the source is assumed not to wrap (remote
addresses sit far below 2^64).  The one machine-width effect that is
modelled explicitly is the 32-bit usize multiplication used by the
array extent and offset computations, since the crate is built for
wasm32 (usize = u32) and a corrupt size field can overflow it; those
products are taken modulo 2^32 exactly as the target would.
-/

namespace FF1

/-- Two's-complement width of usize on the wasm32 target the crate builds for. -/
def usizeMod : Nat := 2 ^ 32

/-- A previous/current sample pair of one observed quantity
(asr::watcher::Pair, the watcher library used by the sources). -/
structure Pair (T : Type) where
  old : T
  current : T
deriving DecidableEq, Repr

/-- Pair::changed: the two samples differ. -/
def Pair.changed {T : Type} [DecidableEq T] (p : Pair T) : Bool :=
  p.old != p.current

/-- Pair::unchanged: the two samples agree. -/
def Pair.unchanged {T : Type} [DecidableEq T] (p : Pair T) : Bool :=
  p.old == p.current

/-- Pair::changed_to: the old sample is not v and the current one is v. -/
def Pair.changed_to {T : Type} [DecidableEq T] (p : Pair T) (v : T) : Bool :=
  p.old != v && p.current == v

/-- Pair::changed_from: the old sample is v and the current one is not. -/
def Pair.changed_from {T : Type} [DecidableEq T] (p : Pair T) (v : T) : Bool :=
  p.old == v && p.current != v

/-- Watcher state (asr::watcher::Watcher): no pair until the first sample. -/
abbrev Watcher (T : Type) := Option (Pair T)

/-- Watcher::update_infallible: on the first sample both halves of the pair are
the new value; afterwards the old current value becomes the old one. -/
def Watcher.update_infallible {T : Type} (w : Watcher T) (v : T) : Pair T :=
  match w with
  | none => { old := v, current := v }
  | some p => { old := p.current, current := v }

/-- BattleResult (src/data.rs): the outcome enumeration of a battle. -/
inductive BattleResult where
  | None
  | Win
  | Lose
  | Escape
  | Forced
  | Restart
  | Unknown
deriving DecidableEq, Repr

/-- Monster (src/game.rs): the split-relevant encounter identities. -/
inductive Monster where
  | Garland
  | Pirates
  | Piscodemons
  | Astos
  | Vampire
  | Lich
  | EvilEye
  | Kraken
  | BlueDragon
  | Tiamat
  | Marilith
  | DeathEye
  | Lich2
  | Marilith2
  | Kraken2
  | Tiamat2
  | Chaos
deriving DecidableEq, Repr

/-- Monster::try_from (num_enum TryFromPrimitive over the discriminants
declared in src/game.rs). -/
def Monster.try_from (n : Nat) : Option Monster :=
  match n with
  | 350 => some .Garland
  | 349 => some .Pirates
  | 88 => some .Piscodemons
  | 348 => some .Astos
  | 347 => some .Vampire
  | 345 => some .Lich
  | 312 => some .EvilEye
  | 343 => some .Kraken
  | 239 => some .BlueDragon
  | 342 => some .Tiamat
  | 344 => some .Marilith
  | 197 => some .DeathEye
  | 338 => some .Lich2
  | 339 => some .Marilith2
  | 340 => some .Kraken2
  | 341 => some .Tiamat2
  | 346 => some .Chaos
  | _ => none

/-- The per-poll battle sample consumed by Game::battle_check: the fields of
the data.battle_info() snapshot that the check reads (src/game.rs). -/
structure BattleInfo where
  playing : Bool
  encounter_id : Nat
  result : BattleResult
deriving DecidableEq, Repr

/-- The watcher state of Game (src/game.rs); the judgement watcher and the
items set are not read by battle_check and are omitted here (the items set
is modelled with inventory_check below). -/
structure Game where
  in_battle : Watcher Bool
  battle_playing : Watcher Bool
deriving DecidableEq, Repr

/-- Game::battle_check (src/game.rs lines 80-136).  info is the optional
result of data.battle_info(), active the result of data.battle_active(),
early the DeathAnimation-mode flag passed down from the settings.  Returns
the emitted monster (if any) and the updated watcher state. -/
def Game.battle_check (g : Game) (info : Option BattleInfo) (active : Bool)
    (early : Bool) : Option Monster × Game :=
  match info with
  | none => (none, g)
  | some info =>
    let playing := g.battle_playing.update_infallible info.playing
    let in_battle := g.in_battle.update_infallible active
    let g1 : Game := { in_battle := some in_battle, battle_playing := some playing }
    if in_battle.current == false && in_battle.unchanged then (none, g1)
    else
      match Monster.try_from info.encounter_id with
      | none => (none, g1)
      | some mon =>
        if in_battle.changed_to true then (none, g1)
        else if in_battle.changed_to false then
          if playing.changed_to false then (none, g1)
          else if !early && mon != Monster.Chaos then (some mon, g1)
          else (none, g1)
        else if in_battle.current then
          if playing.changed_to false && info.result == BattleResult.Win
              && (mon == Monster.Chaos || early) then (some mon, g1)
          else (none, g1)
        else (none, g1)

/-- The event emitted at the activity-ended edge: the battle_check output on
a poll where the in-battle watcher transitions true to false.  On such polls
only the ended branch of battle_check can return an event, so this is the
"activity ended" split event of the spec. -/
def Game.battle_ended_event (g : Game) (info : Option BattleInfo) (active : Bool)
    (early : Bool) : Option Monster :=
  match info with
  | none => none
  | some i =>
    if (g.in_battle.update_infallible active).changed_to false then
      (g.battle_check (some i) active early).1
    else none

/-- C1 counterexample: with the in-battle watcher transitioning true to false
and the playing watcher holding steady at true, no activity-ended event is
emitted when the encounter identity is Chaos (id 346), refuting the claimed
iff: the distinguished-final identity is suppressed at the ended edge. -/
theorem battle_ended_iff_fails_for_chaos :
    ((({ in_battle := some { old := true, current := true },
         battle_playing := some { old := true, current := true } } : Game).in_battle.update_infallible
        false).changed_to false = true)
    ∧ ((({ in_battle := some { old := true, current := true },
           battle_playing := some { old := true, current := true } } : Game).battle_playing.update_infallible
        true).changed_to false = false)
    ∧ (({ in_battle := some { old := true, current := true },
          battle_playing := some { old := true, current := true } } : Game).battle_ended_event
        (some { playing := true, encounter_id := 346, result := BattleResult.Win })
        false false = none) := by
  decide

/-- C1 (amended): Game::battle_check emits an activity-ended event iff the
in-battle watcher transitions true to false, the playing watcher does not
also transition true to false on the same poll, the early (DeathAnimation)
mode is off, and the encounter id maps to a known monster other than Chaos. -/
theorem battle_ended_event_iff (g : Game) (info : BattleInfo) (active early : Bool) :
    (g.battle_ended_event (some info) active early).isSome = true ↔
      ((g.in_battle.update_infallible active).changed_to false = true
        ∧ (g.battle_playing.update_infallible info.playing).changed_to false = false
        ∧ early = false
        ∧ ∃ m, Monster.try_from info.encounter_id = some m ∧ m ≠ Monster.Chaos) := by
  unfold Game.battle_ended_event Game.battle_check
  cases hib : (g.in_battle.update_infallible active).changed_to false with
  | false => simp [hib]
  | true =>
    have hcur : (g.in_battle.update_infallible active).current = false := by
      revert hib
      unfold Pair.changed_to
      cases (g.in_battle.update_infallible active).current <;> simp
    have hold : (g.in_battle.update_infallible active).old = true := by
      revert hib
      unfold Pair.changed_to
      cases h : (g.in_battle.update_infallible active).old <;> simp
    have hunch : (g.in_battle.update_infallible active).unchanged = false := by
      unfold Pair.unchanged
      rw [hcur, hold]
      rfl
    have hct : (g.in_battle.update_infallible active).changed_to true = false := by
      unfold Pair.changed_to
      rw [hcur]
      simp
    simp only [hib, hcur, hunch, hct, Bool.and_false, Bool.false_and, if_true, if_false,
      Bool.and_true, beq_self_eq_true, Bool.true_and, reduceIte]
    cases hm : Monster.try_from info.encounter_id with
    | none => simp
    | some m =>
      cases hpl : (g.battle_playing.update_infallible info.playing).changed_to false with
      | true => simp [hpl]
      | false =>
        cases early with
        | true => simp
        | false =>
          by_cases hc : m = Monster.Chaos
          · subst hc
            simp
          · simp [hc]

/-- Pickup (src/game.rs): the split-relevant inventory identities. -/
inductive Pickup where
  | Lute
  | Ship
  | Crown
  | CrystalEye
  | Tonic
  | MysticKey
  | Nitro
  | StarRuby
  | EarthRod
  | Canoe
  | LeviStone
  | AirShip
  | WarpCube
  | BottledFaerie
  | Oxyale
  | RosettaStone
  | Chime
deriving DecidableEq, Repr

/-- Pickup::try_from (num_enum TryFromPrimitive over the discriminants
declared in src/game.rs). -/
def Pickup.try_from (n : Nat) : Option Pickup :=
  match n with
  | 44 => some .Lute
  | 4 => some .Ship
  | 45 => some .Crown
  | 46 => some .CrystalEye
  | 47 => some .Tonic
  | 48 => some .MysticKey
  | 49 => some .Nitro
  | 52 => some .StarRuby
  | 53 => some .EarthRod
  | 60 => some .Canoe
  | 54 => some .LeviStone
  | 3 => some .AirShip
  | 57 => some .WarpCube
  | 58 => some .BottledFaerie
  | 59 => some .Oxyale
  | 51 => some .RosettaStone
  | 55 => some .Chime
  | _ => none

/-- SplitOn (src/game.rs): the split event emitted by the Game checks. -/
inductive SplitOn where
  | Monster (m : Monster)
  | Pickup (p : Pickup)
deriving DecidableEq, Repr

/-- Action (src/splits.rs). -/
inductive Action where
  | Split (s : SplitOn)
deriving DecidableEq, Repr

/-- Delayed (src/splits.rs): a one-shot countdown holding a pending action.
delay mirrors Option of NonZeroU32: a stored value is always positive. -/
structure Delayed where
  delay : Option Nat
  action : Option Action
deriving DecidableEq, Repr

/-- NonZeroU32::new: zero collapses to none. -/
def nonZeroNew (n : Nat) : Option Nat :=
  if n = 0 then none else some n

/-- Delayed::set (src/splits.rs lines 49-52): unconditionally overwrites both
the countdown and the pending action; there is no assertion against a
pending action already being armed. -/
def Delayed.set (d : Delayed) (amount : Nat) (action : Action) : Delayed :=
  let _ := d
  { delay := nonZeroNew amount, action := some action }

/-- Delayed::tick (src/splits.rs lines 54-60): decrement the countdown once;
when it reaches zero, take and return the pending action.  (At that point
the source expects the action to be present and panics otherwise; in every
state set ever constructs, delay being some implies action being some.) -/
def Delayed.tick (d : Delayed) : Option Action × Delayed :=
  match d.delay with
  | none => (none, d)
  | some n =>
    match nonZeroNew (n - 1) with
    | none => (d.action, { delay := none, action := none })
    | some m => (none, { delay := some m, action := d.action })

/-- Progress::running (src/splits.rs lines 26-39), with the inner
Game::running call abstracted by its per-poll result (the split event the
game checks would emit this poll, if any): the delayed chaos timer is
ticked first and its action, when due, is returned immediately; otherwise
a non-Chaos game event passes through and a Chaos game event arms the
timer for 60 ticks instead of being emitted. -/
def progressStep (chaos : Delayed) (gameEvent : Option SplitOn) :
    Option Action × Delayed :=
  match chaos.tick with
  | (some a, c) => (some a, c)
  | (none, c) =>
    match gameEvent with
    | none => (none, c)
    | some ev =>
      if ev == SplitOn.Monster Monster.Chaos then (none, c.set 60 (Action.Split ev))
      else (some (Action.Split ev), c)

/-- Run progressStep over a whole sequence of polls, collecting the per-poll
outputs. -/
def runFrom (d : Delayed) : List (Option SplitOn) → List (Option Action) × Delayed
  | [] => ([], d)
  | ev :: rest =>
    let (out, d1) := progressStep d ev
    let (outs, dEnd) := runFrom d1 rest
    (out :: outs, dEnd)

/-- The action armed for the distinguished-final (Chaos) identity. -/
def chaosAction : Action := Action.Split (SplitOn.Monster Monster.Chaos)

/-- A poll event stream that never reports a Chaos game event (so the timer
is not re-armed while pending). -/
def noChaosEvents (evs : List (Option SplitOn)) : Prop :=
  ∀ e ∈ evs, e ≠ some (SplitOn.Monster Monster.Chaos)

/-- A disarmed timer stays disarmed over non-Chaos polls and never outputs
the chaos action. -/
theorem runFrom_cleared_no_chaos (evs : List (Option SplitOn))
    (h : noChaosEvents evs) :
    ∀ o ∈ (runFrom { delay := none, action := none } evs).1, o ≠ some chaosAction := by
  induction evs with
  | nil => intro o ho; cases ho
  | cons ev rest ih =>
    intro o ho
    have hev := h ev (List.mem_cons_self _ _)
    have hrest : noChaosEvents rest := fun e he => h e (List.mem_cons_of_mem _ he)
    have hstep : ∃ out, progressStep { delay := none, action := none } ev =
        (out, { delay := none, action := none }) ∧ out ≠ some chaosAction := by
      cases ev with
      | none => exact ⟨none, rfl, by simp⟩
      | some e =>
        have hne : (e == SplitOn.Monster Monster.Chaos) = false := by
          simpa using fun hEq => hev (congrArg some hEq)
        refine ⟨some (Action.Split e), ?_, ?_⟩
        · simp [progressStep, Delayed.tick, hne]
        · simp only [chaosAction, ne_eq, Option.some_inj]
          intro hEq
          have : e = SplitOn.Monster Monster.Chaos := by injection hEq
          exact hev (congrArg some this)
    obtain ⟨out, hstep, hout⟩ := hstep
    simp only [runFrom, hstep] at ho
    rcases List.mem_cons.mp ho with rfl | ho
    · exact hout
    · exact ih hrest o ho

/-- While armed with a positive count and fed only non-Chaos events, the
timer fires exactly when the count runs out: the chaos action appears at
position k-1 of the outputs (the k-th poll after the poll on which the
count was k) and nowhere else. -/
theorem runFrom_armed_fires_at (k : Nat) (hk : 1 ≤ k) (evs : List (Option SplitOn))
    (h : noChaosEvents evs) :
    (∀ i, i ≠ k - 1 →
      (runFrom { delay := some k, action := some chaosAction } evs).1.get? i ≠
        some (some chaosAction))
    ∧ (k ≤ evs.length →
      (runFrom { delay := some k, action := some chaosAction } evs).1.get? (k - 1) =
        some (some chaosAction)) := by
  induction evs generalizing k with
  | nil =>
    refine ⟨fun i _ => by simp [runFrom], fun hles => ?_⟩
    simp at hles
    omega
  | cons ev rest ih =>
    have hev := h ev (List.mem_cons_self _ _)
    have hrest : noChaosEvents rest := fun e he => h e (List.mem_cons_of_mem _ he)
    by_cases hk1 : k = 1
    · subst hk1
      have hstep : progressStep { delay := some 1, action := some chaosAction } ev =
          (some chaosAction, { delay := none, action := none }) := by
        simp [progressStep, Delayed.tick, nonZeroNew]
      constructor
      · intro i hi
        match i with
        | 0 => omega
        | i + 1 =>
          simp only [runFrom, hstep]
          simp only [List.get?_cons_succ]
          intro hmem
          have := runFrom_cleared_no_chaos rest hrest (some chaosAction)
            (List.get?_mem hmem)
          exact this rfl
      · intro _
        simp [runFrom, hstep]
    · have hk2 : 2 ≤ k := by omega
      have hstep : ∃ out, progressStep { delay := some k, action := some chaosAction } ev =
          (out, { delay := some (k - 1), action := some chaosAction }) ∧
          out ≠ some chaosAction := by
        have htick : Delayed.tick { delay := some k, action := some chaosAction } =
            (none, { delay := some (k - 1), action := some chaosAction }) := by
          simp only [Delayed.tick, nonZeroNew]
          rw [if_neg (by omega)]
        cases ev with
        | none => exact ⟨none, by simp [progressStep, htick], by simp⟩
        | some e =>
          have hne : (e == SplitOn.Monster Monster.Chaos) = false := by
            simpa using fun hEq => hev (congrArg some hEq)
          exact ⟨some (Action.Split e), by simp [progressStep, htick, hne],
            by
              simp only [chaosAction, ne_eq, Option.some_inj]
              intro hEq
              exact hev (congrArg some (by injection hEq))⟩
      obtain ⟨out, hstep, hout⟩ := hstep
      obtain ⟨ih1, ih2⟩ := ih (k - 1) (by omega) hrest
      constructor
      · intro i hi
        match i with
        | 0 =>
          simp only [runFrom, hstep, List.get?_cons_zero]
          intro hEq
          exact hout (by injection hEq)
        | i + 1 =>
          simp only [runFrom, hstep, List.get?_cons_succ]
          exact ih1 i (by omega)
      · intro hlen
        have : k - 1 ≤ rest.length := by simp at hlen; omega
        have hidx : k - 1 = (k - 1 - 1) + 1 := by omega
        rw [hidx]
        simp only [runFrom, hstep, List.get?_cons_succ]
        exact hidx ▸ ih2 this

/-- C3: Delayed::set silently overwrites an already-pending delayed action.
With a timer pending (delay 5, chaos action armed), arming again replaces
both the countdown and the action; the pending action is lost without any
rejection or assertion. -/
theorem delayed_set_overwrites_pending :
    Delayed.set { delay := some 5, action := some chaosAction } 60
        (Action.Split (SplitOn.Pickup Pickup.Lute)) =
      { delay := some 60, action := some (Action.Split (SplitOn.Pickup Pickup.Lute)) } := by
  decide

/-- C2: arming the chaos timer on a poll emits nothing on that poll, and --
provided no further Chaos game event re-arms it -- the chaos action fires
exactly on the 60th poll after arming: never earlier, never later, and
never more than once. -/
theorem chaos_timer_fires_after_60 (d0 : Delayed) (hidle : d0.delay = none)
    (evs : List (Option SplitOn)) (h : noChaosEvents evs) :
    (progressStep d0 (some (SplitOn.Monster Monster.Chaos))).1 = none
    ∧ (∀ i, i ≠ 59 →
        (runFrom (progressStep d0 (some (SplitOn.Monster Monster.Chaos))).2 evs).1.get? i ≠
          some (some chaosAction))
    ∧ (60 ≤ evs.length →
        (runFrom (progressStep d0 (some (SplitOn.Monster Monster.Chaos))).2 evs).1.get? 59 =
          some (some chaosAction)) := by
  have harm : progressStep d0 (some (SplitOn.Monster Monster.Chaos)) =
      (none, { delay := some 60, action := some chaosAction }) := by
    simp [progressStep, Delayed.tick, hidle, Delayed.set, nonZeroNew, chaosAction]
  obtain ⟨h1, h2⟩ := runFrom_armed_fires_at 60 (by omega) evs h
  rw [harm]
  exact ⟨rfl, h1, h2⟩

/-- C2 witness: starting from the idle timer and a stream of 60 empty polls,
arming emits nothing, nothing fires on polls 1..59, and the chaos action
fires on poll 60 (output index 59). -/
theorem chaos_timer_fires_after_60_witness :
    ({ delay := none, action := none } : Delayed).delay = none
    ∧ noChaosEvents (List.replicate 60 none)
    ∧ (progressStep { delay := none, action := none }
        (some (SplitOn.Monster Monster.Chaos))).1 = none
    ∧ (runFrom (progressStep { delay := none, action := none }
          (some (SplitOn.Monster Monster.Chaos))).2 (List.replicate 60 none)).1.get? 0 ≠
        some (some chaosAction)
    ∧ (runFrom (progressStep { delay := none, action := none }
          (some (SplitOn.Monster Monster.Chaos))).2 (List.replicate 60 none)).1.get? 59 =
        some (some chaosAction) := by
  have hnc : noChaosEvents (List.replicate 60 none) := by
    intro e he
    simp only [List.eq_of_mem_replicate he]
    exact fun h => by injection h
  obtain ⟨h1, h2, h3⟩ := chaos_timer_fires_after_60 { delay := none, action := none } rfl
    (List.replicate 60 none) hnc
  exact ⟨rfl, hnc, h1, h2 0 (by omega), h3 (by simp)⟩

/-- C8: whenever the delayed action timer is due (one tick remaining), the
Progress poll step returns the armed action immediately, whatever event the
fresh game checks would have produced that tick; the game event of that
poll is discarded and the timer is cleared. -/
theorem delayed_fires_before_game_checks (act : Action) (gameEvent : Option SplitOn) :
    progressStep { delay := some 1, action := some act } gameEvent =
      (some act, { delay := none, action := none }) := by
  simp [progressStep, Delayed.tick, nonZeroNew]

/-- The managed array header (struct Array in src/data.rs): only the size
field is semantically read; the three header words occupy the 0x20 bytes
before the element data (Array::DATA). -/
structure ArrayHeader where
  size : Nat
deriving DecidableEq, Repr

/-- Array::DATA (src/data.rs): byte offset of the first element from the
start of the array object. -/
def arrayData : Nat := 0x20

/-- The state of ArrayIter (src/data.rs lines 571-576): the next element
address and the one-past-the-end address. -/
structure ArrayIter where
  pos : Nat
  endPos : Nat
deriving DecidableEq, Repr

/-- ArrayIter::next (src/data.rs lines 581-590): stop once pos reaches the
end; a failed read yields none and leaves pos unchanged; a successful read
yields the element and advances pos by the element size. -/
def ArrayIter.next {T : Type} (read : Nat → Option T) (sz : Nat) (it : ArrayIter) :
    Option T × ArrayIter :=
  if it.endPos ≤ it.pos then (none, it)
  else
    match read it.pos with
    | none => (none, it)
    | some item => (some item, { it with pos := it.pos + sz })

/-- Drain the iterator the way every Rust consumer in the sources does
(for loops, filter, take, find): keep calling next until it yields none;
fuel bounds the number of calls and the theorems below show the result is
independent of any sufficiently large fuel. -/
def ArrayIter.collect {T : Type} (read : Nat → Option T) (sz : Nat) :
    Nat → ArrayIter → List T
  | 0, _ => []
  | fuel + 1, it =>
    match it.next read sz with
    | (none, _) => []
    | (some item, it1) => item :: ArrayIter.collect read sz fuel it1

/-- Pointer::iter for arrays (src/data.rs lines 454-466): a null pointer or
an unreadable header yields no iterator; otherwise the element range starts
at the data offset and spans size elements, with the usize byte-extent
product taken modulo 2^32 (wasm32). -/
def arrayIterInit (addr : Nat) (readHeader : Nat → Option ArrayHeader) (sz : Nat) :
    Option ArrayIter :=
  if addr = 0 then none
  else
    (readHeader addr).map fun hdr =>
      let start := addr + arrayData
      { pos := start, endPos := start + sz * hdr.size % usizeMod }

/-- Pointer::get for arrays (src/data.rs lines 468-476): read the header,
range-check the index against the untrusted size, then perform one element
read at the offset computed with the 32-bit usize product. -/
def arrayGet {T : Type} (addr : Nat) (readHeader : Nat → Option ArrayHeader)
    (read : Nat → Option T) (sz index : Nat) : Option T :=
  if addr = 0 then none
  else
    match readHeader addr with
    | none => none
    | some hdr =>
      if hdr.size ≤ index then none
      else read (addr + arrayData + index * sz % usizeMod)

/-- The reference description of array iteration: read up to n consecutive
slots starting at start, stopping at the first unreadable one. -/
def readSlots {T : Type} (read : Nat → Option T) (start sz : Nat) : Nat → List T
  | 0 => []
  | n + 1 =>
    match read start with
    | none => []
    | some item => item :: readSlots read (start + sz) sz n

/-- An exhausted iterator (pos at or past the end) collects nothing at any
fuel. -/
theorem collect_of_end_le_pos {T : Type} (read : Nat → Option T) (sz fuel : Nat)
    (it : ArrayIter) (h : it.endPos ≤ it.pos) :
    ArrayIter.collect read sz fuel it = [] := by
  cases fuel with
  | zero => rfl
  | succ n =>
    unfold ArrayIter.collect ArrayIter.next
    rw [if_pos h]

/-- Collecting a byte extent of m from position p equals reading the
ceil(m / sz) slots there, for any fuel of at least that many steps. -/
theorem collect_eq_readSlots_of_extent {T : Type} (read : Nat → Option T) (sz : Nat)
    (hsz : 0 < sz) (fuel m p : Nat) (hfuel : (m + sz - 1) / sz ≤ fuel) :
    ArrayIter.collect read sz fuel { pos := p, endPos := p + m } =
      readSlots read p sz ((m + sz - 1) / sz) := by
  induction fuel generalizing m p with
  | zero =>
    have hm : m = 0 := by
      rcases Nat.eq_zero_or_pos m with h0 | h0
      · exact h0
      · exfalso
        have : 1 ≤ (m + sz - 1) / sz := by
          rw [Nat.le_div_iff_mul_le hsz]
          omega
        omega
    subst hm
    have hc : (0 + sz - 1) / sz = 0 := Nat.div_eq_of_lt (by omega)
    rw [hc]
    rfl
  | succ fuel ih =>
    rcases Nat.eq_zero_or_pos m with h0 | h0
    · subst h0
      rw [collect_of_end_le_pos read sz _ _ (by show p + 0 ≤ p; omega)]
      have hc : (0 + sz - 1) / sz = 0 := Nat.div_eq_of_lt (by omega)
      rw [hc]
      rfl
    · have hcount : (m + sz - 1) / sz = (m - 1) / sz + 1 := by
        have hrw : m + sz - 1 = (m - 1) + sz := by omega
        rw [hrw, Nat.add_div_right _ hsz]
      rw [hcount]
      unfold ArrayIter.collect ArrayIter.next
      rw [if_neg (by show ¬(p + m ≤ p); omega)]
      simp only
      unfold readSlots
      cases hr : read p with
      | none => rfl
      | some item =>
        simp only
        rcases Nat.lt_or_ge m sz with hlt | hge
        · have hz : (m - 1) / sz = 0 := Nat.div_eq_of_lt (by omega)
          rw [hz]
          rw [collect_of_end_le_pos read sz fuel _ (by show p + m ≤ p + sz; omega)]
          rfl
        · have hext : p + m = (p + sz) + (m - sz) := by omega
          have hc2 : (m - 1) / sz = (m - sz + sz - 1) / sz := by
            congr 1
            omega
          rw [hc2, hext]
          rw [ih (m - sz) (p + sz) (by rw [← hc2]; omega)]

/-- Draining the iterator built from a readable header whose byte extent
does not overflow the 32-bit usize product yields exactly the size-bounded
slot prefix up to the first unreadable slot. -/
theorem collect_init_eq_readSlots {T : Type} (addr : Nat)
    (readHeader : Nat → Option ArrayHeader) (read : Nat → Option T) (sz : Nat)
    (hdr : ArrayHeader) (it : ArrayIter) (fuel : Nat)
    (hit : arrayIterInit addr readHeader sz = some it)
    (hhdr : readHeader addr = some hdr)
    (hsz : 0 < sz)
    (hov : sz * hdr.size < usizeMod)
    (hfuel : hdr.size ≤ fuel) :
    ArrayIter.collect read sz fuel it = readSlots read (addr + arrayData) sz hdr.size := by
  have haddr : addr ≠ 0 := by
    intro h0
    rw [arrayIterInit, if_pos h0] at hit
    exact Option.noConfusion hit
  have hit2 : it =
      ⟨addr + arrayData, addr + arrayData + sz * hdr.size % usizeMod⟩ := by
    rw [arrayIterInit, if_neg haddr, hhdr, Option.map_some'] at hit
    exact (Option.some_inj.mp hit).symm
  subst hit2
  rw [Nat.mod_eq_of_lt hov]
  have hcount : (sz * hdr.size + sz - 1) / sz = hdr.size := by
    have : sz * hdr.size + sz - 1 = sz - 1 + hdr.size * sz := by ring_nf; omega
    rw [this, Nat.add_mul_div_right _ _ hsz, Nat.div_eq_of_lt (by omega)]
    omega
  rw [collect_eq_readSlots_of_extent read sz hsz fuel (sz * hdr.size) (addr + arrayData)
    (by rw [hcount]; exact hfuel)]
  rw [hcount]

/-- C5 (amended): for every array header, however corrupt its size field,
draining the iterator terminates (the collected list is the same for every
fuel of at least size steps) and -- provided the byte extent sz * size does
not overflow the 32-bit usize product -- yields exactly the elements of the
first size slots up to the first unreadable one, stopping at the first
failed read.  With an overflowing extent the computed range only shrinks,
so iteration still terminates and never reads past the first failure. -/
theorem array_iter_stops_at_first_unreadable {T : Type} (addr : Nat)
    (readHeader : Nat → Option ArrayHeader) (read : Nat → Option T) (sz : Nat)
    (hdr : ArrayHeader) (it : ArrayIter) (fuel : Nat)
    (hit : arrayIterInit addr readHeader sz = some it)
    (hhdr : readHeader addr = some hdr)
    (hsz : 0 < sz)
    (hov : sz * hdr.size < usizeMod)
    (hfuel : hdr.size ≤ fuel) :
    ArrayIter.collect read sz fuel it = readSlots read (addr + arrayData) sz hdr.size :=
  collect_init_eq_readSlots addr readHeader read sz hdr it fuel hit hhdr hsz hov hfuel

/-- C5 witness: a header reporting 1000 elements of size 4 while memory is
unmapped beyond 4 elements: draining the iterator yields exactly the 4
readable elements and stops at the first failed read. -/
theorem array_iter_stops_witness :
    arrayIterInit 0x1000 (fun a => if a = 0x1000 then some { size := 1000 } else none) 4 =
      some { pos := 0x1020, endPos := 0x1020 + 4000 }
    ∧ ArrayIter.collect (fun a => if a < 0x1020 + 16 then some a else none) 4 1000
        { pos := 0x1020, endPos := 0x1020 + 4000 } = [0x1020, 0x1024, 0x1028, 0x102c] := by
  constructor
  · decide
  · rw [array_iter_stops_at_first_unreadable 0x1000
      (fun a => if a = 0x1000 then some { size := 1000 } else none)
      (fun a => if a < 0x1020 + 16 then some a else none) 4 { size := 1000 }
      { pos := 0x1020, endPos := 0x1020 + 4000 } 1000 (by decide) (by decide)
      (by decide) (by decide) (by decide)]
    decide

/-- C5 counterexample: on the wasm32 target the byte-extent product
sizeof * size is a 32-bit usize multiplication; a corrupt size of 2^30 with
4-byte elements wraps it to 0, so the iterator stops immediately and yields
no element even though the first slots are readable -- the claimed "exactly
the prefix of elements before the first unreadable slot" fails (debug
builds would instead panic on the overflow). -/
theorem array_iter_extent_overflow :
    arrayIterInit 0x1000 (fun a => if a = 0x1000 then some { size := 2 ^ 30 } else none) 4 =
      some { pos := 0x1020, endPos := 0x1020 }
    ∧ ArrayIter.collect (fun a => if a < 0x1020 + 16 then some a else none) 4 1000
        { pos := 0x1020, endPos := 0x1020 } = []
    ∧ readSlots (fun a => if a < 0x1020 + 16 then some a else none) 0x1020 4 (2 ^ 30) ≠ [] := by
  refine ⟨?_, ?_, ?_⟩
  · decide
  · exact collect_of_end_le_pos _ 4 1000 _ (Nat.le_refl _)
  · have h30 : (2 : Nat) ^ 30 = 1073741823 + 1 := by decide
    rw [h30]
    unfold readSlots
    rw [if_pos (by decide)]
    simp

/-- C9 (amended): Pointer::get for arrays range-checks the index against the
header's size: an out-of-range index yields none for every possible memory
content (no element read is performed), and an in-range index performs
exactly one read, at base + 0x20 + index * sizeof whenever that usize
product does not overflow 32 bits (and in general at the wrapped offset
base + 0x20 + (index * sizeof mod 2^32)). -/
theorem array_get_range_checked {T : Type} (addr : Nat)
    (readHeader : Nat → Option ArrayHeader) (read : Nat → Option T) (sz index : Nat)
    (hdr : ArrayHeader) (haddr : addr ≠ 0) (hhdr : readHeader addr = some hdr) :
    (hdr.size ≤ index →
      ∀ read2 : Nat → Option T, arrayGet addr readHeader read2 sz index = none)
    ∧ (index < hdr.size →
      arrayGet addr readHeader read sz index =
        read (addr + arrayData + index * sz % usizeMod))
    ∧ (index < hdr.size → index * sz < usizeMod →
      arrayGet addr readHeader read sz index = read (addr + arrayData + index * sz)) := by
  refine ⟨fun hle read2 => ?_, fun hlt => ?_, fun hlt hov => ?_⟩
  · simp only [arrayGet, if_neg haddr, hhdr]
    rw [if_pos hle]
  · simp only [arrayGet, if_neg haddr, hhdr]
    rw [if_neg (by omega)]
  · simp only [arrayGet, if_neg haddr, hhdr]
    rw [if_neg (by omega), Nat.mod_eq_of_lt hov]

/-- C9 witness: header of size 8 at a non-null address; index 9 is rejected
without a read (here even though the slot would be readable), and index 2
performs the single read at base + 0x20 + 2 * 4. -/
theorem array_get_range_checked_witness :
    ((0x1000 : Nat) ≠ 0)
    ∧ ((fun a => if a = 0x1000 then some ({ size := 8 } : ArrayHeader) else none) 0x1000 =
        some { size := 8 })
    ∧ arrayGet 0x1000 (fun a => if a = 0x1000 then some { size := 8 } else none)
        (fun a => some a) 4 9 = none
    ∧ arrayGet 0x1000 (fun a => if a = 0x1000 then some { size := 8 } else none)
        (fun a => some a) 4 2 = some (0x1000 + 0x20 + 2 * 4) := by
  have h := array_get_range_checked 0x1000
    (fun a => if a = 0x1000 then some ({ size := 8 } : ArrayHeader) else none)
    (fun a => some (a : Nat)) 4 9 { size := 8 } (by decide) (by decide)
  have h2 := array_get_range_checked 0x1000
    (fun a => if a = 0x1000 then some ({ size := 8 } : ArrayHeader) else none)
    (fun a => some (a : Nat)) 4 2 { size := 8 } (by decide) (by decide)
  refine ⟨by decide, by decide, h.1 (by decide) _, ?_⟩
  rw [h2.2.2 (by decide) (by decide)]
  decide

/-- C9 counterexample: with a corrupt in-range index whose byte offset
overflows the 32-bit usize product (index 2^30, 4-byte elements, size
2^31), the single read happens at the wrapped offset base + 0x20 rather
than at base + 0x20 + index * sizeof as claimed: here the wrapped address
is readable while the claimed address is not, yet get returns a value. -/
theorem array_get_offset_overflow :
    arrayGet 0x1000 (fun a => if a = 0x1000 then some { size := 2 ^ 31 } else none)
        (fun a => if a = 0x1020 then some (7 : Nat) else none) 4 (2 ^ 30) = some 7
    ∧ (fun a => if a = 0x1020 then some (7 : Nat) else none)
        (0x1000 + arrayData + 2 ^ 30 * 4) = none := by
  constructor
  · decide
  · decide

/-- One slot of the managed hashtable's backing array (struct Entry in
src/data.rs; the source names the first two fields _hash and _next). -/
structure Entry (K V : Type) where
  hash : Nat
  next : Nat
  key : K
  value : V
deriving DecidableEq, Repr

/-- A slot is live when hash and next are not both zero; the filter used by
map iteration (src/data.rs line 498). -/
def Entry.live {K V : Type} (e : Entry K V) : Bool :=
  e.hash != 0 || e.next != 0

/-- The managed map header (struct Map in src/data.rs): the address of the
backing entry array and the logical size. -/
structure MapHeader where
  entries : Nat
  size : Nat
deriving DecidableEq, Repr

/-- Pointer::iter for maps (src/data.rs lines 492-503): null-check the map
pointer, read the map header, iterate the backing entry array, keep only
live slots, truncate to the map's size, and project key/value pairs. -/
def mapIter {K V : Type} (addr : Nat) (readMap : Nat → Option MapHeader)
    (readArrayHeader : Nat → Option ArrayHeader)
    (readEntry : Nat → Option (Entry K V)) (entrySz fuel : Nat) :
    Option (List (K × V)) :=
  if addr = 0 then none
  else
    (readMap addr).bind fun m =>
      (arrayIterInit m.entries readArrayHeader entrySz).map fun it =>
        (((ArrayIter.collect readEntry entrySz fuel it).filter Entry.live).take m.size).map
          fun e => (e.key, e.value)

/-- When the first n slots are all readable, readSlots returns exactly their
contents. -/
theorem readSlots_of_all_readable {T : Type} (read : Nat → Option T) (start sz : Nat)
    (slots : List T)
    (hread : ∀ j, j < slots.length → read (start + j * sz) = slots.get? j) :
    readSlots read start sz slots.length = slots := by
  induction slots generalizing start with
  | nil => rfl
  | cons x rest ih =>
    have h0 := hread 0 (by simp)
    rw [Nat.zero_mul, Nat.add_zero] at h0
    simp only [List.get?] at h0
    have htail : ∀ j, j < rest.length → read (start + sz + j * sz) = rest.get? j := by
      intro j hj
      have := hread (j + 1) (by simp; omega)
      rw [show start + (j + 1) * sz = start + sz + j * sz by ring] at this
      simpa using this
    simp only [List.length_cons, readSlots, h0]
    rw [ih (start + sz) htail]

/-- C4 (amended): for every readable map header over a fully readable
backing entry array whose byte extent does not overflow the 32-bit usize
product, map iteration yields exactly the live entries of the backing
array -- skipping every slot whose hash and next fields are both zero --
in slot order, truncated to the map's size field. -/
theorem map_iter_yields_live_entries {K V : Type} (addr : Nat)
    (readMap : Nat → Option MapHeader) (readArrayHeader : Nat → Option ArrayHeader)
    (readEntry : Nat → Option (Entry K V)) (entrySz fuel : Nat)
    (m : MapHeader) (slots : List (Entry K V))
    (haddr : addr ≠ 0)
    (hm : readMap addr = some m)
    (hent : m.entries ≠ 0)
    (harr : readArrayHeader m.entries = some { size := slots.length })
    (hsz : 0 < entrySz)
    (hov : entrySz * slots.length < usizeMod)
    (hfuel : slots.length ≤ fuel)
    (hread : ∀ j, j < slots.length →
      readEntry (m.entries + arrayData + j * entrySz) = slots.get? j) :
    mapIter addr readMap readArrayHeader readEntry entrySz fuel =
      some (((slots.filter Entry.live).take m.size).map fun e => (e.key, e.value)) := by
  have hinit : arrayIterInit m.entries readArrayHeader entrySz =
      some ⟨m.entries + arrayData,
        m.entries + arrayData + entrySz * slots.length % usizeMod⟩ := by
    rw [arrayIterInit, if_neg hent, harr, Option.map_some']
  have hcoll := collect_init_eq_readSlots m.entries readArrayHeader readEntry entrySz
    { size := slots.length } _ fuel hinit harr hsz hov hfuel
  rw [mapIter, if_neg haddr, hm, Option.some_bind, hinit, Option.map_some', hcoll]
  rw [readSlots_of_all_readable readEntry (m.entries + arrayData) entrySz slots hread]

/-- C4 witness: a map header with size 3 over 8 backing slots where slots
2 and 5 (and the spare slots 1, 4, 7) are tombstones (hash and next both
zero) and slots 0, 3, 6 are live: iteration yields exactly the three live
entries, in slot order, and nothing else. -/
theorem map_iter_yields_live_entries_witness :
    mapIter 0x1000
      (fun a => if a = 0x1000 then some { entries := 0x2000, size := 3 } else none)
      (fun a => if a = 0x2000 then some { size := 8 } else none)
      (fun a =>
        if a = 0x2020 then some ⟨7, 0, 10, 100⟩
        else if a = 0x2030 then some ⟨0, 0, 0, 0⟩
        else if a = 0x2040 then some ⟨0, 0, 0, 0⟩
        else if a = 0x2050 then some ⟨9, 1, 13, 103⟩
        else if a = 0x2060 then some ⟨0, 0, 0, 0⟩
        else if a = 0x2070 then some ⟨0, 0, 0, 0⟩
        else if a = 0x2080 then some ⟨0, 3, 16, 106⟩
        else if a = 0x2090 then some ⟨0, 0, 0, 0⟩
        else none)
      16 8 =
      some [((10 : Nat), (100 : Nat)), (13, 103), (16, 106)] := by
  rw [map_iter_yields_live_entries 0x1000
    (fun a => if a = 0x1000 then some { entries := 0x2000, size := 3 } else none)
    (fun a => if a = 0x2000 then some { size := 8 } else none)
    (fun a =>
      if a = 0x2020 then some ⟨7, 0, 10, 100⟩
      else if a = 0x2030 then some ⟨0, 0, 0, 0⟩
      else if a = 0x2040 then some ⟨0, 0, 0, 0⟩
      else if a = 0x2050 then some ⟨9, 1, 13, 103⟩
      else if a = 0x2060 then some ⟨0, 0, 0, 0⟩
      else if a = 0x2070 then some ⟨0, 0, 0, 0⟩
      else if a = 0x2080 then some ⟨0, 3, 16, 106⟩
      else if a = 0x2090 then some ⟨0, 0, 0, 0⟩
      else none)
    16 8 { entries := 0x2000, size := 3 }
    [⟨7, 0, 10, 100⟩, ⟨0, 0, 0, 0⟩, ⟨0, 0, 0, 0⟩, ⟨9, 1, 13, 103⟩,
      ⟨0, 0, 0, 0⟩, ⟨0, 0, 0, 0⟩, ⟨0, 3, 16, 106⟩, ⟨0, 0, 0, 0⟩]
    (by decide) (by decide) (by decide) (by decide) (by decide) (by decide) (by decide)
    (by decide)]
  decide

/-- C4 counterexample: on the wasm32 target the backing entry array's byte
extent is a 32-bit usize multiplication; a corrupt backing-array size of
2^28 with 16-byte entries wraps it to 0, so map iteration yields no entry
at all even though the first three slots are readable live entries and the
map's size field is 3 -- refuting the unqualified claim that iteration
yields exactly the live entries truncated to size, for every readable
header (debug builds would instead panic on the overflow). -/
theorem map_iter_extent_overflow :
    arrayIterInit 0x2000 (fun a => if a = 0x2000 then some { size := 2 ^ 28 } else none) 16 =
      some { pos := 0x2020, endPos := 0x2020 }
    ∧ mapIter 0x1000
        (fun a => if a = 0x1000 then some { entries := 0x2000, size := 3 } else none)
        (fun a => if a = 0x2000 then some { size := 2 ^ 28 } else none)
        (fun a =>
          if a = 0x2020 then some ⟨7, 0, 10, 100⟩
          else if a = 0x2030 then some ⟨9, 1, 13, 103⟩
          else if a = 0x2040 then some ⟨0, 3, 16, 106⟩
          else none)
        16 1000 = some ([] : List (Nat × Nat))
    ∧ (fun a =>
        if a = 0x2020 then some ⟨7, 0, 10, 100⟩
        else if a = 0x2030 then some ⟨9, 1, 13, 103⟩
        else if a = 0x2040 then some ⟨0, 3, 16, 106⟩
        else none) 0x2020 = some (⟨7, 0, 10, 100⟩ : Entry Nat Nat)
    ∧ Entry.live (⟨7, 0, 10, 100⟩ : Entry Nat Nat) = true := by
  refine ⟨by decide, by decide, by decide, by decide⟩

/-- OwnedTransportationData (src/data.rs): the saveData pointer field. -/
structure OwnedTransportationData where
  data : Nat
deriving DecidableEq, Repr

/-- SaveTransportationData (src/data.rs): the raw vehicle id and the signed
map id. -/
structure SaveTransportationData where
  id : Nat
  map_id : Int
deriving DecidableEq, Repr

/-- u32::try_from on an integer value: fails outside 0..2^32. -/
def u32_try_from (i : Int) : Option Nat :=
  if 0 ≤ i ∧ i < 4294967296 then some i.toNat else none

/-- Items::vehicle_ids (src/data.rs lines 306-333), with the vehicle-list
iteration abstracted by the list of entry addresses it produces: each entry
is resolved through the transportation record and its save data, the map id
must convert to u32 (negative map ids fail), and only then is the raw id
yielded; every failing step silently skips the entry (filter_map). -/
def vehicle_ids (readTransport : Nat → Option OwnedTransportationData)
    (readSave : Nat → Option SaveTransportationData) (vehicles : List Nat) : List Nat :=
  vehicles.filterMap fun v =>
    (readTransport v).bind fun t =>
      (readSave t.data).bind fun s =>
        (u32_try_from s.map_id).map fun _ => s.id

/-- C10: a vehicle entry whose save data carries a negative map id is
silently skipped by vehicle_ids and contributes no id at all -- removing it
from the list leaves the output unchanged, so it can never produce a pickup
event regardless of its raw id. -/
theorem vehicle_negative_map_id_skipped
    (readTransport : Nat → Option OwnedTransportationData)
    (readSave : Nat → Option SaveTransportationData)
    (l1 l2 : List Nat) (v : Nat)
    (t : OwnedTransportationData) (s : SaveTransportationData)
    (ht : readTransport v = some t) (hs : readSave t.data = some s)
    (hneg : s.map_id < 0) :
    vehicle_ids readTransport readSave (l1 ++ v :: l2) =
      vehicle_ids readTransport readSave (l1 ++ l2) := by
  unfold vehicle_ids
  rw [List.filterMap_append, List.filterMap_append, List.filterMap_cons]
  have hnone : ((readTransport v).bind fun t =>
      (readSave t.data).bind fun s =>
        (u32_try_from s.map_id).map fun _ => s.id) = none := by
    rw [ht, Option.some_bind, hs, Option.some_bind]
    rw [u32_try_from, if_neg (by omega)]
    rfl
  rw [hnone]

/-- C10 witness: a vehicle entry at address 10 with map id -1 and raw id 3
(the AirShip discriminant) is skipped, while the entry at address 11 with a
non-negative map id still yields its id. -/
theorem vehicle_negative_map_id_skipped_witness :
    vehicle_ids
      (fun a => if a = 10 then some ⟨20⟩ else if a = 11 then some ⟨21⟩ else none)
      (fun a => if a = 20 then some ⟨3, -1⟩ else if a = 21 then some ⟨4, 0⟩ else none)
      ([] ++ 10 :: [11]) =
    vehicle_ids
      (fun a => if a = 10 then some ⟨20⟩ else if a = 11 then some ⟨21⟩ else none)
      (fun a => if a = 20 then some ⟨3, -1⟩ else if a = 21 then some ⟨4, 0⟩ else none)
      ([] ++ [11])
    ∧ vehicle_ids
      (fun a => if a = 10 then some ⟨20⟩ else if a = 11 then some ⟨21⟩ else none)
      (fun a => if a = 20 then some ⟨3, -1⟩ else if a = 21 then some ⟨4, 0⟩ else none)
      ([] ++ 10 :: [11]) = [4] := by
  constructor
  · exact vehicle_negative_map_id_skipped
      (fun a => if a = 10 then some ⟨20⟩ else if a = 11 then some ⟨21⟩ else none)
      (fun a => if a = 20 then some ⟨3, -1⟩ else if a = 21 then some ⟨4, 0⟩ else none)
      [] [11] 10 ⟨20⟩ ⟨3, -1⟩ (by decide) (by decide) (by decide)
  · decide

namespace Lib

/-- BattleSplit (src/lib.rs): when to split on battles. -/
inductive BattleSplit where
  | DeathAnimation
  | BattleEnd
deriving DecidableEq, Repr

/-- Modelled from the spec: the Item enumeration consumed by src/lib.rs is
declared in the data module variant of the repository, which is not among
the provided sources; its members are reconstructed from the exhaustive
match in Splits::split_check (src/lib.rs lines 650-668) and coincide with
the Pickup enum of src/game.rs. -/
inductive Item where
  | Lute
  | Ship
  | Crown
  | CrystalEye
  | Tonic
  | MysticKey
  | Nitro
  | StarRuby
  | EarthRod
  | Canoe
  | LeviStone
  | AirShip
  | WarpCube
  | BottledFaerie
  | Oxyale
  | RosettaStone
  | Chime
deriving DecidableEq, Repr, Fintype

/-- Modelled from the spec: the Location enumeration of the data module is
not among the provided sources; the members below are the ones matched in
src/lib.rs (SplitOn::from_watcher and Location::has_key_item), with a
catch-all constructor standing for every other map identity. -/
inductive Location where
  | ElfenheimItemShop
  | Elfenheim
  | WorldMap
  | MarshCave1
  | MelmondBMShop
  | Melmond
  | IceCave1
  | WaterfallCave
  | MirageTower3
  | FlyingFortress
  | ChaosShrine3
  | ChaosShrine2
  | CorneliaThrone
  | Pravoka
  | MarshCave3
  | WesternKeep
  | MatoyaCave
  | ElvenCastle
  | CastleCornelia
  | EarthCave3
  | SageCave
  | CrescentLake
  | IceCave2
  | AirHangar
  | OasisShop
  | Gaia
  | Underwater5
  | Lufenia
  | Other (id : Nat)
deriving DecidableEq, Repr

/-- SplitOn (src/lib.rs lines 348-392): every split the autosplitter can
emit, in declaration order (the order fixing the EnumSet ordinals). -/
inductive SplitOn where
  | Garland
  | Lute
  | Pirates
  | Ship
  | MarshShop
  | MarshCave
  | Piscodemons
  | Crown
  | Astos
  | CrystalEye
  | Tonic
  | MysticKey
  | Nitro
  | Firaga
  | Vampire
  | StarRuby
  | EarthRod
  | Lich
  | Canoe
  | EvilEye
  | LeviStone
  | IceCave
  | AirShip
  | WarpCube
  | WaterfallCave
  | BottledFaerie
  | Oxyale
  | RosettaStone
  | Kraken
  | Chime
  | BlueDragon
  | FlyingFortress
  | Tiamat
  | Marilith
  | DeathEye
  | ChaosShrine
  | Lich2
  | Marilith2
  | Kraken2
  | Tiamat2
  | Chaos
deriving DecidableEq, Repr, Fintype

/-- The EnumSetMember ordinal of a split (u8::from via IntoPrimitive):
the declaration index. -/
def SplitOn.ordinal (s : SplitOn) : Nat := SplitOn.toCtorIdx s

/-- Modelled from the spec: the EnumSetMember impl for Item is in the data
module variant not among the provided sources; per the spec the seen-set is
a fixed-width bitset indexed by the enum ordinal, so the ordinal is the
declaration index, as for SplitOn. -/
def Item.ordinal (i : Item) : Nat := Item.toCtorIdx i

/-- EnumSet::insert (src/lib.rs lines 546-559): given the current bits and
the member's ordinal, set the ordinal's bit and report whether it was
previously clear; an absent or out-of-range ordinal inserts nothing. -/
def EnumSet.insert (bits : Nat) (ord : Option Nat) : Bool × Nat :=
  match ord with
  | none => (false, bits)
  | some o =>
    if 64 ≤ o then (false, bits)
    else ((bits &&& 2 ^ o) == 0, bits ||| 2 ^ o)

/-- The monster-to-split mapping of Splits::split_check (src/lib.rs lines
620-638). -/
def monsterSplit (m : Monster) : SplitOn :=
  match m with
  | .Garland => .Garland
  | .Pirates => .Pirates
  | .Piscodemons => .Piscodemons
  | .Astos => .Astos
  | .Vampire => .Vampire
  | .Lich => .Lich
  | .EvilEye => .EvilEye
  | .Kraken => .Kraken
  | .BlueDragon => .BlueDragon
  | .Tiamat => .Tiamat
  | .Marilith => .Marilith
  | .DeathEye => .DeathEye
  | .Lich2 => .Lich2
  | .Marilith2 => .Marilith2
  | .Kraken2 => .Kraken2
  | .Tiamat2 => .Tiamat2
  | .Chaos => .Chaos

/-- The item-to-split mapping of Splits::split_check (src/lib.rs lines
650-668). -/
def itemSplit (i : Item) : SplitOn :=
  match i with
  | .Lute => .Lute
  | .Ship => .Ship
  | .Crown => .Crown
  | .CrystalEye => .CrystalEye
  | .Tonic => .Tonic
  | .MysticKey => .MysticKey
  | .Nitro => .Nitro
  | .StarRuby => .StarRuby
  | .EarthRod => .EarthRod
  | .Canoe => .Canoe
  | .LeviStone => .LeviStone
  | .AirShip => .AirShip
  | .WarpCube => .WarpCube
  | .BottledFaerie => .BottledFaerie
  | .Oxyale => .Oxyale
  | .RosettaStone => .RosettaStone
  | .Chime => .Chime

/-- SplitOn::from_watcher (src/lib.rs lines 395-407): the location
transitions that produce a field split. -/
def SplitOn.from_watcher (w : Pair Location) : Option SplitOn :=
  match w.old, w.current with
  | .ElfenheimItemShop, .Elfenheim => some .MarshShop
  | .WorldMap, .MarshCave1 => some .MarshCave
  | .MelmondBMShop, .Melmond => some .Firaga
  | .IceCave1, .WorldMap => some .IceCave
  | .WaterfallCave, .WorldMap => some .WaterfallCave
  | .MirageTower3, .FlyingFortress => some .FlyingFortress
  | .ChaosShrine3, .ChaosShrine2 => some .ChaosShrine
  | _, _ => none

/-- Location::has_key_item (src/lib.rs lines 509-532). -/
def Location.has_key_item (l : Location) : Bool :=
  match l with
  | .CorneliaThrone => true
  | .Pravoka => true
  | .MarshCave3 => true
  | .WesternKeep => true
  | .MatoyaCave => true
  | .ElvenCastle => true
  | .CastleCornelia => true
  | .EarthCave3 => true
  | .SageCave => true
  | .CrescentLake => true
  | .IceCave2 => true
  | .AirHangar => true
  | .WaterfallCave => true
  | .OasisShop => true
  | .Gaia => true
  | .Underwater5 => true
  | .Lufenia => true
  | _ => false

/-- f32::MAX -- the disarmed value of the chaos end timer -- as an exact
rational, (2 - 2^-23) * 2^127.  Battle times are modelled as exact
rationals; the rounding of f32 arithmetic is outside the model. -/
def f32MAX : ℚ := (2 - (1 : ℚ) / 2 ^ 23) * 2 ^ 127

/-- The per-poll snapshot consumed by Splits::check: the values the data
accessors return this tick (battle_active, encounter, battle_result,
battle_time, location, and the key-item and vehicle id streams already
mapped into Item).  Two byte-for-byte identical remote snapshots yield the
same PollData. -/
structure PollData where
  active : Bool
  encounter : Option Monster
  result : BattleResult
  time : ℚ
  location : Option Location
  key_items : List Item
  vehicles : List Item
deriving DecidableEq, Repr

/-- Splits (src/lib.rs lines 591-598): the poll-step state. -/
structure Splits where
  in_battle : Watcher Bool
  battle_result : Watcher BattleResult
  location : Watcher Location
  items : Nat
  seen : Nat
  chaos_end : ℚ
deriving DecidableEq, Repr

/-- Splits::new (src/lib.rs lines 601-610). -/
def Splits.new : Splits :=
  { in_battle := none, battle_result := none, location := none, items := 0,
    seen := 0, chaos_end := f32MAX }

/-- The battle_check result: a monster split to emit, or the NoBattle
marker that lets the field and inventory checks run (Result of Monster and
NoBattle in the source). -/
inductive BattleOutcome where
  | NoBattle
  | Monster (m : Monster)
deriving DecidableEq, Repr

/-- Splits::battle_check (src/lib.rs lines 675-747). -/
def Splits.battle_check (s : Splits) (d : PollData) (split : BattleSplit) :
    Option BattleOutcome × Splits :=
  let in_battle := s.in_battle.update_infallible d.active
  let s1 : Splits := { s with in_battle := some in_battle }
  if in_battle.current == false && in_battle.unchanged then (some .NoBattle, s1)
  else
    match d.encounter with
    | none => (none, s1)
    | some monster =>
      let result := s1.battle_result.update_infallible d.result
      let s2 : Splits := { s1 with battle_result := some result }
      if in_battle.changed_to true then (none, s2)
      else if in_battle.changed_to false then
        (if result.changed_from BattleResult.Win && (split == BattleSplit.BattleEnd)
            && (monster != Monster.Chaos)
          then some (.Monster monster) else none, s2)
      else
        let s3 : Splits :=
          if monster == Monster.Chaos && result.changed_to BattleResult.Win
          then { s2 with chaos_end := d.time + 120 / 60 } else s2
        if monster == Monster.Chaos && result.unchanged
            && (result.current == BattleResult.Win) && decide (s3.chaos_end < d.time)
        then (some (.Monster monster), { s3 with chaos_end := f32MAX })
        else if result.changed_to BattleResult.Win && (split == BattleSplit.DeathAnimation)
        then (some (.Monster monster), s3)
        else (none, s3)

/-- Splits::field_check (src/lib.rs lines 749-757): the Ok case is a field
split, the Err case hands the current location to the inventory gate. -/
def Splits.field_check (s : Splits) (d : PollData) :
    Option (Sum SplitOn Location) × Splits :=
  match d.location with
  | none => (none, s)
  | some loc =>
    let location := s.location.update_infallible loc
    let s1 : Splits := { s with location := some location }
    match SplitOn.from_watcher location with
    | some field => (some (Sum.inl field), s1)
    | none => (some (Sum.inr location.current), s1)

/-- Iterator::find with the mutating EnumSet::insert predicate (the closure
in Splits::inventory_check): every examined item is inserted into the bits;
the scan stops at the first item whose bit was previously clear. -/
def findInsert (bits : Nat) : List Item → Option Item × Nat
  | [] => (none, bits)
  | i :: rest =>
    match EnumSet.insert bits (some i.ordinal) with
    | (true, bits1) => (some i, bits1)
    | (false, bits1) => findInsert bits1 rest

/-- Splits::inventory_check (src/lib.rs lines 759-771): key items are
scanned before vehicles, and the first newly-seen item short-circuits. -/
def Splits.inventory_check (s : Splits) (d : PollData) : Option Item × Splits :=
  match findInsert s.items d.key_items with
  | (some item, bits) => (some item, { s with items := bits })
  | (none, bits) =>
    match findInsert bits d.vehicles with
    | (some vehicle, bits2) => (some vehicle, { s with items := bits2 })
    | (none, bits2) => (none, { s with items := bits2 })

/-- Splits::split_check (src/lib.rs lines 617-673): battle check first (its
None short-circuits the whole poll), then field transitions, then -- only on
key-item locations -- the inventory diff. -/
def Splits.split_check (s : Splits) (d : PollData) (split : BattleSplit) :
    Option SplitOn × Splits :=
  match s.battle_check d split with
  | (none, s1) => (none, s1)
  | (some (.Monster m), s1) => (some (monsterSplit m), s1)
  | (some .NoBattle, s1) =>
    match s1.field_check d with
    | (none, s2) => (none, s2)
    | (some (Sum.inl field), s2) => (some field, s2)
    | (some (Sum.inr loc), s2) =>
      if loc.has_key_item then
        match s2.inventory_check d with
        | (some item, s3) => (some (itemSplit item), s3)
        | (none, s3) => (none, s3)
      else (none, s2)

/-- Splits::check (src/lib.rs lines 612-615): deduplicate emitted splits
through the seen-splits EnumSet. -/
def Splits.check (s : Splits) (d : PollData) (split : BattleSplit) :
    Option SplitOn × Splits :=
  match s.split_check d split with
  | (none, s1) => (none, s1)
  | (some sp, s1) =>
    match EnumSet.insert s1.seen (some sp.ordinal) with
    | (isNew, seen1) => (if isNew then some sp else none, { s1 with seen := seen1 })

/-- Updating a watcher always leaves the new sample as the current half. -/
theorem update_current {T : Type} (w : Watcher T) (v : T) :
    (w.update_infallible v).current = v := by
  cases w <;> rfl

/-- Updating an observed watcher shifts the current sample into the old
half. -/
theorem update_some {T : Type} (p : Pair T) (v : T) :
    Watcher.update_infallible (some p) v = ⟨p.current, v⟩ := rfl

/-- A pair with equal halves reports no transition to any value. -/
theorem changed_to_refl {T : Type} [DecidableEq T] (v x : T) :
    (Pair.mk v v).changed_to x = false := by
  unfold Pair.changed_to
  by_cases h : v = x <;> simp [h]

/-- A pair with equal halves reports no transition from any value. -/
theorem changed_from_refl {T : Type} [DecidableEq T] (v x : T) :
    (Pair.mk v v).changed_from x = false := by
  unfold Pair.changed_from
  by_cases h : v = x <;> simp [h]

/-- A pair with equal halves is unchanged. -/
theorem unchanged_refl {T : Type} [DecidableEq T] (v : T) :
    (Pair.mk v v).unchanged = true := by
  simp [Pair.unchanged]

/-- Inserting an absent ordinal reports true and sets the bit. -/
theorem enumInsert_of_not_mem (bits o : Nat) (ho : o < 64)
    (h : bits.testBit o = false) :
    EnumSet.insert bits (some o) = (true, bits ||| 2 ^ o) := by
  have hand : bits &&& 2 ^ o = 0 := by
    rw [Nat.and_two_pow, h]
    simp
  simp only [EnumSet.insert, hand]
  rw [if_neg (by omega)]
  simp

/-- Setting an already-set bit leaves the bits unchanged. -/
theorem lor_two_pow_of_testBit (bits o : Nat) (h : bits.testBit o = true) :
    bits ||| 2 ^ o = bits := by
  apply Nat.eq_of_testBit_eq
  intro j
  rw [Nat.testBit_or, Nat.testBit_two_pow]
  by_cases hj : o = j
  · subst hj
    simp [h]
  · simp [hj]

/-- Inserting a present ordinal reports false and leaves the bits
unchanged. -/
theorem enumInsert_of_mem (bits o : Nat) (ho : o < 64) (h : bits.testBit o = true) :
    EnumSet.insert bits (some o) = (false, bits) := by
  have hand : bits &&& 2 ^ o = 2 ^ o := by
    rw [Nat.and_two_pow, h]
    simp
  have hne : ((2 ^ o : Nat) == 0) = false := by
    simp
  simp only [EnumSet.insert, hand, hne, lor_two_pow_of_testBit bits o h]
  rw [if_neg (by omega)]

/-- Every item ordinal fits the 64-bit EnumSet. -/
theorem item_ordinal_lt : ∀ i : Item, i.ordinal < 64 := by decide

/-- Item ordinals are injective. -/
theorem item_ordinal_inj : ∀ i j : Item, i.ordinal = j.ordinal → i = j := by decide

/-- A scan over items whose bits are all set finds nothing and leaves the
bits untouched. -/
theorem findInsert_all_present (bits : Nat) (l : List Item)
    (h : ∀ i ∈ l, bits.testBit i.ordinal = true) :
    findInsert bits l = (none, bits) := by
  induction l with
  | nil => rfl
  | cons i rest ih =>
    have hi := h i (List.mem_cons_self _ _)
    unfold findInsert
    rw [enumInsert_of_mem bits i.ordinal (item_ordinal_lt i) hi]
    exact ih fun j hj => h j (List.mem_cons_of_mem _ hj)

/-- A scan over items where exactly k is new finds k and sets its bit. -/
theorem findInsert_first_new (bits : Nat) (l : List Item) (k : Item)
    (hnew : bits.testBit k.ordinal = false) (hmem : k ∈ l)
    (hothers : ∀ i ∈ l, i ≠ k → bits.testBit i.ordinal = true) :
    findInsert bits l = (some k, bits ||| 2 ^ k.ordinal) := by
  induction l with
  | nil => cases hmem
  | cons i rest ih =>
    by_cases hik : i = k
    · subst hik
      unfold findInsert
      rw [enumInsert_of_not_mem bits i.ordinal (item_ordinal_lt i) hnew]
    · have hi := hothers i (List.mem_cons_self _ _) hik
      unfold findInsert
      rw [enumInsert_of_mem bits i.ordinal (item_ordinal_lt i) hi]
      have hmem2 : k ∈ rest := by
        rcases List.mem_cons.mp hmem with h | h
        · exact absurd h.symm hik
        · exact h
      exact ih hmem2 fun j hj hjk => hothers j (List.mem_cons_of_mem _ hj) hjk

/-- C6: when one key item and one vehicle become newly present in the same
poll, the inventory check emits exactly one pickup that poll -- the key
item, because key items are scanned before vehicles -- and emits the
vehicle on the following poll from the updated state. -/
theorem inventory_key_item_before_vehicle (s : Splits) (d : PollData) (k v : Item)
    (hkmem : k ∈ d.key_items) (hknew : s.items.testBit k.ordinal = false)
    (hkoth : ∀ i ∈ d.key_items, i ≠ k → s.items.testBit i.ordinal = true)
    (hvmem : v ∈ d.vehicles) (hvnew : s.items.testBit v.ordinal = false)
    (hvoth : ∀ i ∈ d.vehicles, i ≠ v → s.items.testBit i.ordinal = true)
    (hkv : v ≠ k) :
    (s.inventory_check d).1 = some k
    ∧ ((s.inventory_check d).2.inventory_check d).1 = some v := by
  have h1 : findInsert s.items d.key_items = (some k, s.items ||| 2 ^ k.ordinal) :=
    findInsert_first_new _ _ _ hknew hkmem hkoth
  have hkv2 : k.ordinal ≠ v.ordinal := fun h => hkv (item_ordinal_inj v k (h.symm ▸ rfl))
  constructor
  · simp only [Splits.inventory_check, h1]
  · have hpres : ∀ i ∈ d.key_items, (s.items ||| 2 ^ k.ordinal).testBit i.ordinal = true := by
      intro i hi
      rw [Nat.testBit_or]
      by_cases hik : i = k
      · subst hik
        simp [Nat.testBit_two_pow]
      · rw [hkoth i hi hik]
        rfl
    have hvnew2 : (s.items ||| 2 ^ k.ordinal).testBit v.ordinal = false := by
      rw [Nat.testBit_or, hvnew, Nat.testBit_two_pow]
      simp [hkv2]
    have hvoth2 : ∀ i ∈ d.vehicles, i ≠ v →
        (s.items ||| 2 ^ k.ordinal).testBit i.ordinal = true := by
      intro i hi hiv
      rw [Nat.testBit_or, hvoth i hi hiv]
      rfl
    have hall := findInsert_all_present (s.items ||| 2 ^ k.ordinal) d.key_items hpres
    have hfirst := findInsert_first_new (s.items ||| 2 ^ k.ordinal) d.vehicles v
      hvnew2 hvmem hvoth2
    simp only [Splits.inventory_check, h1, hall, hfirst]

/-- C6 witness: from the fresh state, a poll where the Lute (key item) and
the Ship (vehicle) are both newly present yields the Lute pickup on the
first call and the Ship pickup on the second call with the identical
snapshot. -/
theorem inventory_key_item_before_vehicle_witness :
    (Splits.inventory_check Splits.new
      { active := false, encounter := none, result := BattleResult.None, time := 0,
        location := some Location.Pravoka, key_items := [Item.Lute],
        vehicles := [Item.Ship] }).1 = some Item.Lute
    ∧ ((Splits.inventory_check Splits.new
      { active := false, encounter := none, result := BattleResult.None, time := 0,
        location := some Location.Pravoka, key_items := [Item.Lute],
        vehicles := [Item.Ship] }).2.inventory_check
      { active := false, encounter := none, result := BattleResult.None, time := 0,
        location := some Location.Pravoka, key_items := [Item.Lute],
        vehicles := [Item.Ship] }).1 = some Item.Ship :=
  inventory_key_item_before_vehicle Splits.new
    { active := false, encounter := none, result := BattleResult.None, time := 0,
      location := some Location.Pravoka, key_items := [Item.Lute],
      vehicles := [Item.Ship] }
    Item.Lute Item.Ship
    (by decide) (by decide) (by decide) (by decide) (by decide) (by decide) (by decide)

/-- After battle_check, the in-battle watcher holds the freshly updated
pair, and -- when a battle is active and an encounter is known -- so does
the battle-result watcher. -/
theorem battle_check_post (s : Splits) (d : PollData) (mode : BattleSplit) :
    ((s.battle_check d mode).2.in_battle =
      some (s.in_battle.update_infallible d.active))
    ∧ (d.active = true → ∀ m, d.encounter = some m →
      (s.battle_check d mode).2.battle_result =
        some (s.battle_result.update_infallible d.result)) := by
  constructor
  · simp only [Splits.battle_check]
    repeat' split
    all_goals rfl
  · intro hact m hm
    have hcur : (s.in_battle.update_infallible d.active).current = d.active :=
      update_current _ _
    have hcond : ((s.in_battle.update_infallible d.active).current == false
        && (s.in_battle.update_infallible d.active).unchanged) = false := by
      rw [hcur, hact]
      rfl
    simp only [Splits.battle_check, hm]
    rw [if_neg (by intro hc; rw [hcond] at hc; exact Bool.false_ne_true hc)]
    repeat' split
    all_goals rfl

/-- field_check never touches the battle watchers. -/
theorem field_check_preserves (s : Splits) (d : PollData) :
    (s.field_check d).2.in_battle = s.in_battle
    ∧ (s.field_check d).2.battle_result = s.battle_result := by
  refine ⟨?_, ?_⟩ <;> simp only [Splits.field_check] <;> repeat' split
  all_goals rfl

/-- inventory_check never touches the battle watchers. -/
theorem inventory_check_preserves (s : Splits) (d : PollData) :
    (s.inventory_check d).2.in_battle = s.in_battle
    ∧ (s.inventory_check d).2.battle_result = s.battle_result := by
  refine ⟨?_, ?_⟩ <;> simp only [Splits.inventory_check] <;> repeat' split
  all_goals rfl

/-- split_check leaves the battle watchers exactly as battle_check left
them. -/
theorem split_check_state (s : Splits) (d : PollData) (mode : BattleSplit) :
    (s.split_check d mode).2.in_battle = (s.battle_check d mode).2.in_battle
    ∧ (s.split_check d mode).2.battle_result = (s.battle_check d mode).2.battle_result := by
  unfold Splits.split_check
  rcases hbc : s.battle_check d mode with ⟨o1, s1⟩
  match o1 with
  | none => exact ⟨rfl, rfl⟩
  | some (.Monster m) => exact ⟨rfl, rfl⟩
  | some .NoBattle =>
    simp only []
    rcases hfc : s1.field_check d with ⟨o2, s2⟩
    have hf := field_check_preserves s1 d
    rw [hfc] at hf
    match o2 with
    | none => exact ⟨hf.1, hf.2⟩
    | some (Sum.inl field) => exact ⟨hf.1, hf.2⟩
    | some (Sum.inr loc) =>
      simp only []
      by_cases hk : loc.has_key_item = true
      · rw [if_pos hk]
        rcases hic : s2.inventory_check d with ⟨o3, s3⟩
        have hi := inventory_check_preserves s2 d
        rw [hic] at hi
        match o3 with
        | none => exact ⟨hi.1.trans hf.1, hi.2.trans hf.2⟩
        | some item => exact ⟨hi.1.trans hf.1, hi.2.trans hf.2⟩
      · rw [if_neg hk]
        exact ⟨hf.1, hf.2⟩

/-- check leaves the battle watchers exactly as split_check left them. -/
theorem check_state (s : Splits) (d : PollData) (mode : BattleSplit) :
    (s.check d mode).2.in_battle = (s.split_check d mode).2.in_battle
    ∧ (s.check d mode).2.battle_result = (s.split_check d mode).2.battle_result := by
  unfold Splits.check
  rcases hsc : s.split_check d mode with ⟨o, s1⟩
  match o with
  | none => exact ⟨rfl, rfl⟩
  | some sp => exact ⟨rfl, rfl⟩

/-- On a poll whose watchers already hold the very values the poll samples
(the second of two identical polls), battle_check can only report NoBattle,
nothing, or the delayed chaos-timer event. -/
theorem battle_check_unchanged (s : Splits) (d : PollData) (mode : BattleSplit)
    (p : Pair Bool) (hib : s.in_battle = some p) (hcur : p.current = d.active)
    (hres : d.active = true → ∀ m, d.encounter = some m →
      ∃ q, s.battle_result = some q ∧ q.current = d.result) :
    (s.battle_check d mode).1 = none
    ∨ (s.battle_check d mode).1 = some BattleOutcome.NoBattle
    ∨ (s.battle_check d mode).1 = some (BattleOutcome.Monster Monster.Chaos) := by
  unfold Splits.battle_check
  rw [hib, update_some, hcur]
  cases hact : d.active with
  | false =>
    rw [if_pos (by decide)]
    right
    left
    rfl
  | true =>
    rw [if_neg (by decide)]
    cases henc : d.encounter with
    | none =>
      left
      rfl
    | some m =>
      obtain ⟨q, hq, hqcur⟩ := hres hact m henc
      rw [hq, update_some, hqcur]
      simp only []
      rw [if_neg (show ¬((Pair.mk true true : Pair Bool).changed_to true = true) by
        simp [changed_to_refl])]
      rw [if_neg (show ¬((Pair.mk true true : Pair Bool).changed_to false = true) by
        simp [changed_to_refl])]
      rw [if_neg (show ¬((m == Monster.Chaos
          && (Pair.mk d.result d.result).changed_to BattleResult.Win) = true) by
        simp [changed_to_refl])]
      split
      · rename_i hfire
        have hchaos : m = Monster.Chaos := by
          simp only [Bool.and_eq_true] at hfire
          exact beq_iff_eq.mp hfire.1.1.1
        right
        right
        rw [hchaos]
      · split
        · rename_i hdeath
          simp [changed_to_refl] at hdeath
        · left
          rfl

/-- The splits that can fire as backlog on the second of two identical
polls: a location-transition split or a pickup split. -/
def backlogSplit (sp : SplitOn) : Prop :=
  (∃ w : Pair Location, SplitOn.from_watcher w = some sp) ∨ ∃ i : Item, itemSplit i = sp

/-- Whatever split_check emits went through the seen-set filter of check:
the poll either emits that split or swallows it. -/
theorem check_out_of_split (s : Splits) (d : PollData) (mode : BattleSplit) :
    (s.check d mode).1 = none ∨ (s.check d mode).1 = (s.split_check d mode).1 := by
  unfold Splits.check
  rcases hsc : s.split_check d mode with ⟨o, s1⟩
  match o with
  | none => left; rfl
  | some sp =>
    rcases hins : EnumSet.insert s1.seen (some sp.ordinal) with ⟨isNew, seen1⟩
    cases isNew with
    | false =>
      left
      simp [hins]
    | true =>
      right
      simp [hins]

/-- A field split reported by field_check always comes out of the
from_watcher location-transition table. -/
theorem field_check_inl (s : Splits) (d : PollData) (sp : SplitOn) (s2 : Splits)
    (h : s.field_check d = (some (Sum.inl sp), s2)) :
    ∃ w : Pair Location, SplitOn.from_watcher w = some sp := by
  revert h
  unfold Splits.field_check
  cases d.location with
  | none =>
    intro h
    exact absurd (congrArg Prod.fst h) (by simp)
  | some loc =>
    simp only []
    cases hw : SplitOn.from_watcher (s.location.update_infallible loc) with
    | none =>
      intro h
      simp at h
    | some f =>
      intro h
      refine ⟨s.location.update_infallible loc, ?_⟩
      rw [hw]
      have hf : f = sp := by
        have h2 := congrArg Prod.fst h
        simp at h2
        exact h2
      rw [hf]

/-- When battle_check can only produce NoBattle, nothing or the chaos
timer, split_check can only produce nothing, the Chaos split, or a backlog
split. -/
theorem split_check_out_cases (s : Splits) (d : PollData) (mode : BattleSplit)
    (hbc : (s.battle_check d mode).1 = none
      ∨ (s.battle_check d mode).1 = some BattleOutcome.NoBattle
      ∨ (s.battle_check d mode).1 = some (BattleOutcome.Monster Monster.Chaos)) :
    (s.split_check d mode).1 = none
    ∨ (s.split_check d mode).1 = some SplitOn.Chaos
    ∨ ∃ sp, (s.split_check d mode).1 = some sp ∧ backlogSplit sp := by
  unfold Splits.split_check
  rcases hb : s.battle_check d mode with ⟨o1, s1⟩
  rw [hb] at hbc
  simp only [] at hbc
  rcases hbc with h1 | h1 | h1
  · subst h1
    left
    simp only []
  · subst h1
    simp only []
    rcases hfc : s1.field_check d with ⟨o2, s2⟩
    match o2, hfc with
    | none, hfc =>
      left
      simp only []
    | some (Sum.inl field), hfc =>
      right
      right
      exact ⟨field, by simp only [], Or.inl (field_check_inl s1 d field s2 hfc)⟩
    | some (Sum.inr loc), hfc =>
      simp only []
      by_cases hk : loc.has_key_item = true
      · rw [if_pos hk]
        rcases hic : s2.inventory_check d with ⟨o3, s3⟩
        match o3 with
        | none =>
          left
          simp only []
        | some item =>
          right
          right
          exact ⟨itemSplit item, by simp only [], Or.inr ⟨item, rfl⟩⟩
      · rw [if_neg hk]
        left
        simp only []
  · subst h1
    right
    left
    simp only []
    rfl

/-- C7 (amended): on the second of two successive polls with byte-for-byte
identical snapshots, the poll step emits no event, with two exceptions: the
delayed chaos end-of-battle timer (which fires on its own schedule, as the
SplitOn.Chaos event) and backlog events -- location-transition or pickup
splits that were masked on the first poll by a higher-priority event, which
drain one per poll.  In particular no battle split other than the chaos
timer can re-fire on unchanged input. -/
theorem poll_second_identical_call (s : Splits) (d : PollData) (mode : BattleSplit) :
    (((Splits.check s d mode).2).check d mode).1 = none
    ∨ (((Splits.check s d mode).2).check d mode).1 = some SplitOn.Chaos
    ∨ ∃ sp, (((Splits.check s d mode).2).check d mode).1 = some sp ∧ backlogSplit sp := by
  have hib : ((Splits.check s d mode).2).in_battle =
      some (s.in_battle.update_infallible d.active) := by
    rw [(check_state s d mode).1, (split_check_state s d mode).1,
      (battle_check_post s d mode).1]
  have hres : d.active = true → ∀ m, d.encounter = some m →
      ∃ q, ((Splits.check s d mode).2).battle_result = some q ∧ q.current = d.result := by
    intro hact m hm
    refine ⟨s.battle_result.update_infallible d.result, ?_, update_current _ _⟩
    rw [(check_state s d mode).2, (split_check_state s d mode).2,
      (battle_check_post s d mode).2 hact m hm]
  have hbc := battle_check_unchanged ((Splits.check s d mode).2) d mode
    (s.in_battle.update_infallible d.active) hib (update_current _ _) hres
  have hsc := split_check_out_cases ((Splits.check s d mode).2) d mode hbc
  rcases check_out_of_split ((Splits.check s d mode).2) d mode with hnone | heq
  · left
    exact hnone
  · rw [heq]
    exact hsc

/-- C7 counterexample: from the fresh state, a poll on a key-item location
with two newly present items (Lute in key items, Ship in vehicles): the
first call emits the Lute split, arms no timer (chaos_end stays at the
disarmed f32 MAX), and the second call with the byte-for-byte identical
snapshot still emits an event -- the Ship split -- refuting the claim that
only a previously armed delayed timer may fire on unchanged input. -/
theorem poll_second_call_fires_backlog_pickup :
    (Splits.check Splits.new
      { active := false, encounter := none, result := BattleResult.None, time := 0,
        location := some Location.Pravoka, key_items := [Item.Lute],
        vehicles := [Item.Ship] } BattleSplit.BattleEnd).1 = some SplitOn.Lute
    ∧ ((Splits.check Splits.new
      { active := false, encounter := none, result := BattleResult.None, time := 0,
        location := some Location.Pravoka, key_items := [Item.Lute],
        vehicles := [Item.Ship] } BattleSplit.BattleEnd).2).chaos_end = f32MAX
    ∧ (Splits.check ((Splits.check Splits.new
      { active := false, encounter := none, result := BattleResult.None, time := 0,
        location := some Location.Pravoka, key_items := [Item.Lute],
        vehicles := [Item.Ship] } BattleSplit.BattleEnd).2)
      { active := false, encounter := none, result := BattleResult.None, time := 0,
        location := some Location.Pravoka, key_items := [Item.Lute],
        vehicles := [Item.Ship] } BattleSplit.BattleEnd).1 = some SplitOn.Ship := by
  refine ⟨by decide, by rfl, by decide⟩

end Lib

end FF1
